import Mathlib

/-!
Verification of `src/filter_playlist.py` (SourceLTD/source_explorer).

The program reads an M3U playlist as a list of lines and filters it:
header lines (`#EXTM3U`, `#EXT-X-SESSION-DATA`) are always kept; an
`#EXTINF` line is kept together with its following reference line when
some keyword occurs (case-insensitively) in the metadata text; all other
lines are dropped.  Lines are modelled as `List Char`; the line-by-line
cursor loop of the Python source is modelled as structural recursion on
the list of lines, consuming one or two lines per step exactly as the
cursor `i` advances by one or two.
-/

namespace SourceExplorer

/-- Python `s.startswith(p)`: `p` is a leading segment of `s`
(argument order: pattern first, then the scanned line). -/
def startsWith : List Char → List Char → Bool
  | [], _ => true
  | _ :: _, [] => false
  | p :: ps, c :: cs => p == c && startsWith ps cs

/-- Python `needle in hay` for strings: `needle` occurs contiguously in `hay`. -/
def hasSubstring : List Char → List Char → Bool
  | hay, needle =>
    startsWith needle hay ||
      match hay with
      | [] => false
      | _ :: t => hasSubstring t needle

/-- Python `s.lower()`, modelled characterwise with the ASCII case map
(`Char.toLower`); the hard-coded keywords of the source are ASCII, where
this agrees with Python's `str.lower`. -/
def pyLower (s : List Char) : List Char := s.map Char.toLower

/-- Keyword list hard-coded at `filter_playlist.py:10`. -/
def keywords : List (List Char) :=
  ["sports".toList, "football".toList, "Arsenal".toList,
   "Peacock".toList, "EPL".toList]

/-- Test of `filter_playlist.py:24`: a header line starts with
`#EXTM3U` or `#EXT-X-SESSION-DATA`. -/
def isHeaderLine (l : List Char) : Bool :=
  startsWith "#EXTM3U".toList l || startsWith "#EXT-X-SESSION-DATA".toList l

/-- Test of `filter_playlist.py:30`: an entry-metadata line starts with `#EXTINF`. -/
def isExtinfLine (l : List Char) : Bool :=
  startsWith "#EXTINF".toList l

/-- Test of `filter_playlist.py:40` / `:48`: the marker prefix `#`. -/
def startsHash (l : List Char) : Bool :=
  startsWith "#".toList l

/-- Match check of `filter_playlist.py:32-33`: some keyword, lowercased,
occurs as a substring of the lowercased line. -/
def matchesKeyword (line : List Char) : Bool :=
  keywords.any fun keyword => hasSubstring (pyLower line) (pyLower keyword)

/-- The scan loop of `filter_playlist.py:20-52`.  Cursor position `i` of
the Python `while` loop corresponds to the head of the remaining list:
each branch consumes the lines the loop body steps `i` over.

* line 24-27 (header): emit the line, advance by 1;
* line 30-44 (`#EXTINF`, matched): emit the line, advance by 1, then
  - if the next line exists and does not start with `#`: emit it and
    advance by 1 more (line 40-42),
  - otherwise advance by 1 anyway (the `else` of line 43-44); when the
    next line exists this extra step consumes that marker line without
    emitting it;
* line 45-49 (`#EXTINF`, not matched): advance by 1, then advance by 1
  more only if the next line exists and does not start with `#`;
* line 50-52 (any other line): advance by 1, emit nothing. -/
def filter_playlist : List (List Char) → List (List Char)
  | [] => []
  | line :: rest =>
    if isHeaderLine line then
      line :: filter_playlist rest
    else if isExtinfLine line then
      if matchesKeyword line then
        match rest with
        | nxt :: rest2 =>
          if startsHash nxt = false then
            line :: nxt :: filter_playlist rest2
          else
            line :: filter_playlist rest2
        | [] => [line]
      else
        match rest with
        | nxt :: rest2 =>
          if startsHash nxt = false then
            filter_playlist rest2
          else
            filter_playlist (nxt :: rest2)
        | [] => []
    else
      filter_playlist rest

/-- Summary value printed at `filter_playlist.py:59`. -/
def input_line_count (ls : List (List Char)) : Nat := ls.length

/-- Summary value printed at `filter_playlist.py:60`. -/
def output_line_count (ls : List (List Char)) : Nat :=
  (filter_playlist ls).length

/-- Summary value printed at `filter_playlist.py:61`:
`(len(filtered_lines) - 2) // 2` with Python's floor division,
modelled by `Int.fdiv`. -/
def channels_matched (ls : List (List Char)) : Int :=
  (((filter_playlist ls).length : Int) - 2).fdiv 2

/-- Modelled from the spec (§4.1 edge cases): the true matched-entry
count, "track matched-entry count directly via an incrementing counter
during the scan" — the same cursor walk as `filter_playlist`, adding 1
each time a processed `#EXTINF` line matches a keyword.  The Python
source has no such counter; it prints the division formula instead. -/
def trueMatchedCount : List (List Char) → Nat
  | [] => 0
  | line :: rest =>
    if isHeaderLine line then
      trueMatchedCount rest
    else if isExtinfLine line then
      if matchesKeyword line then
        match rest with
        | nxt :: rest2 =>
          if startsHash nxt = false then
            1 + trueMatchedCount rest2
          else
            1 + trueMatchedCount rest2
        | [] => 1
      else
        match rest with
        | nxt :: rest2 =>
          if startsHash nxt = false then
            trueMatchedCount rest2
          else
            trueMatchedCount (nxt :: rest2)
        | [] => 0
    else
      trueMatchedCount rest

/-- Scenario A input of the spec: header, unmatched entry with reference,
matched entry with reference. -/
def scenarioA : List (List Char) :=
  ["#EXTM3U\n".toList, "#EXTINF:0,Random Channel\n".toList,
   "http://x/1\n".toList, "#EXTINF:0,Arsenal TV\n".toList,
   "http://x/2\n".toList]

/-! Basic facts about the prefix test. -/

theorem startsWith_trans : ∀ p q l : List Char,
    startsWith p q = true → startsWith q l = true → startsWith p l = true := by
  intro p
  induction p with
  | nil => intro q l _ _; simp [startsWith]
  | cons a as ih =>
    intro q l hpq hql
    cases q with
    | nil => simp [startsWith] at hpq
    | cons b bs =>
      cases l with
      | nil => simp [startsWith] at hql
      | cons c cs =>
        simp only [startsWith, Bool.and_eq_true, beq_iff_eq] at hpq hql ⊢
        exact ⟨hpq.1.trans hql.1, ih bs cs hpq.2 hql.2⟩

theorem startsWith_of_le : ∀ (p q l : List Char),
    startsWith p l = true → startsWith q l = true → p.length ≤ q.length →
    startsWith p q = true := by
  intro p
  induction p with
  | nil => intro q l _ _ _; simp [startsWith]
  | cons a as ih =>
    intro q l hp hq hlen
    cases l with
    | nil => simp [startsWith] at hp
    | cons c cs =>
      cases q with
      | nil => simp at hlen
      | cons b bs =>
        simp only [startsWith, Bool.and_eq_true, beq_iff_eq] at hp hq ⊢
        refine ⟨hp.1.trans hq.1.symm, ih bs cs hp.2 hq.2 ?_⟩
        simpa using hlen

theorem isHeaderLine_startsHash {l : List Char} (h : isHeaderLine l = true) :
    startsHash l = true := by
  simp only [isHeaderLine, Bool.or_eq_true] at h
  rcases h with h | h
  · exact startsWith_trans _ _ _ (by decide) h
  · exact startsWith_trans _ _ _ (by decide) h

theorem isExtinfLine_startsHash {l : List Char} (h : isExtinfLine l = true) :
    startsHash l = true :=
  startsWith_trans _ _ _ (by decide) h

theorem isHeaderLine_not_extinf {l : List Char} (h : isHeaderLine l = true) :
    isExtinfLine l = false := by
  cases he : isExtinfLine l with
  | false => rfl
  | true =>
    exfalso
    rw [isExtinfLine] at he
    simp only [isHeaderLine, Bool.or_eq_true] at h
    rcases h with h | h
    · exact absurd (startsWith_of_le _ _ l he h (by decide)) (by decide)
    · exact absurd (startsWith_of_le _ _ l he h (by decide)) (by decide)

/-! Unfolding equations for `filter_playlist`, one per branch of the scan. -/

theorem filter_playlist_nil : filter_playlist [] = [] := rfl

theorem filter_playlist_header {a : List Char} {l : List (List Char)}
    (h1 : isHeaderLine a = true) :
    filter_playlist (a :: l) = a :: filter_playlist l := by
  rw [filter_playlist.eq_def]; simp [h1]

theorem filter_playlist_matched_last {a : List Char}
    (h1 : isHeaderLine a = false) (h2 : isExtinfLine a = true)
    (h3 : matchesKeyword a = true) :
    filter_playlist [a] = [a] := by
  rw [filter_playlist.eq_def]; simp [h1, h2, h3]

theorem filter_playlist_matched_ref {a b : List Char} {l : List (List Char)}
    (h1 : isHeaderLine a = false) (h2 : isExtinfLine a = true)
    (h3 : matchesKeyword a = true) (h4 : startsHash b = false) :
    filter_playlist (a :: b :: l) = a :: b :: filter_playlist l := by
  rw [filter_playlist.eq_def]; simp [h1, h2, h3, h4]

theorem filter_playlist_matched_marker {a b : List Char} {l : List (List Char)}
    (h1 : isHeaderLine a = false) (h2 : isExtinfLine a = true)
    (h3 : matchesKeyword a = true) (h4 : startsHash b = true) :
    filter_playlist (a :: b :: l) = a :: filter_playlist l := by
  rw [filter_playlist.eq_def]; simp [h1, h2, h3, h4]

theorem filter_playlist_unmatched_last {a : List Char}
    (h1 : isHeaderLine a = false) (h2 : isExtinfLine a = true)
    (h3 : matchesKeyword a = false) :
    filter_playlist [a] = [] := by
  rw [filter_playlist.eq_def]; simp [h1, h2, h3]

theorem filter_playlist_unmatched_ref {a b : List Char} {l : List (List Char)}
    (h1 : isHeaderLine a = false) (h2 : isExtinfLine a = true)
    (h3 : matchesKeyword a = false) (h4 : startsHash b = false) :
    filter_playlist (a :: b :: l) = filter_playlist l := by
  rw [filter_playlist.eq_def]; simp [h1, h2, h3, h4]

theorem filter_playlist_unmatched_marker {a b : List Char} {l : List (List Char)}
    (h1 : isHeaderLine a = false) (h2 : isExtinfLine a = true)
    (h3 : matchesKeyword a = false) (h4 : startsHash b = true) :
    filter_playlist (a :: b :: l) = filter_playlist (b :: l) := by
  rw [filter_playlist.eq_def]; simp [h1, h2, h3, h4]

theorem filter_playlist_other {a : List Char} {l : List (List Char)}
    (h1 : isHeaderLine a = false) (h2 : isExtinfLine a = false) :
    filter_playlist (a :: l) = filter_playlist l := by
  rw [filter_playlist.eq_def]; simp [h1, h2]

/-- Every output of the scan is a sublist (order-preserving selection)
of its input. -/
theorem filter_playlist_sublist (ls : List (List Char)) :
    List.Sublist (filter_playlist ls) ls := by
  induction ls using filter_playlist.induct with
  | case1 => simp [filter_playlist_nil]
  | case2 line rest h1 ih =>
    rw [filter_playlist_header h1]
    exact ih.cons₂ _
  | case3 line h1 h2 h3 nxt rest2 h4 ih =>
    rw [filter_playlist_matched_ref (by simpa using h1) h2 h3 h4]
    exact (ih.cons₂ _).cons₂ _
  | case4 line h1 h2 h3 nxt rest2 h4 ih =>
    rw [filter_playlist_matched_marker (by simpa using h1) h2 h3 (by simpa using h4)]
    exact (ih.trans (List.sublist_cons_self _ _)).cons₂ _
  | case5 line h1 h2 h3 =>
    rw [filter_playlist_matched_last (by simpa using h1) h2 h3]
  | case6 line h1 h2 h3 nxt rest2 h4 ih =>
    rw [filter_playlist_unmatched_ref (by simpa using h1) h2 (by simpa using h3) h4]
    exact ih.trans ((List.sublist_cons_self _ _).trans (List.sublist_cons_self _ _))
  | case7 line h1 h2 h3 nxt rest2 h4 ih =>
    rw [filter_playlist_unmatched_marker (by simpa using h1) h2
      (by simpa using h3) (by simpa using h4)]
    exact ih.trans (List.sublist_cons_self _ _)
  | case8 line h1 h2 h3 =>
    rw [filter_playlist_unmatched_last (by simpa using h1) h2 (by simpa using h3)]
    exact List.nil_sublist _
  | case9 line rest h1 h2 ih =>
    rw [filter_playlist_other (by simpa using h1) (by simpa using h2)]
    exact ih.trans (List.sublist_cons_self _ _)

/-! Concrete inputs exhibiting the two slips of the source. -/

/-- Matched entry-metadata line immediately followed by a header line:
the `else` of `filter_playlist.py:43-44` advances the cursor past the
header line, dropping it. -/
def matchedThenHeader : List (List Char) :=
  ["#EXTINF:0,Arsenal\n".toList, "#EXTM3U\n".toList]

/-- Matched entry, a comment-like marker line, then a header line:
after one pass the header survives; a second pass drops it. -/
def refilterInput : List (List Char) :=
  ["#EXTINF:0,Arsenal\n".toList, "#junk\n".toList, "#EXTM3U\n".toList]

/-- A single matched entry with its reference line. -/
def soloEntryInput : List (List Char) :=
  ["#EXTINF:0,Arsenal\n".toList, "http://x\n".toList]

/-- C1: refuted on the code.  On `matchedThenHeader` the entry-metadata
line matches (`Arsenal`), and the following line is a marker (header)
line; the claim says the cursor advances by exactly 1 so that the header
is processed as its own line — which, being a header, would emit it.
Instead the scan consumes the header as part of the entry and drops it:
the output is just the metadata line, while the same header processed on
its own is emitted. -/
theorem spec_C1_matched_consumes_following_marker :
    filter_playlist matchedThenHeader = ["#EXTINF:0,Arsenal\n".toList] ∧
    filter_playlist ["#EXTM3U\n".toList] = ["#EXTM3U\n".toList] := by
  constructor <;> decide

/-- C2: refuted on the code.  The header line `#EXTM3U` is present in
`matchedThenHeader` but absent from the output, because it immediately
follows a matched entry-metadata line and the `else` of
`filter_playlist.py:43-44` consumes it. -/
theorem spec_C2_header_line_dropped :
    isHeaderLine "#EXTM3U\n".toList = true ∧
    "#EXTM3U\n".toList ∈ matchedThenHeader ∧
    "#EXTM3U\n".toList ∉ filter_playlist matchedThenHeader := by
  refine ⟨by decide, by decide, by decide⟩

/-- C3: partially refuted on the code.  On the Scenario A input the
output lines are exactly the three claimed lines, but the reported
matched-entry count — `(len(filtered_lines) - 2) // 2` at
`filter_playlist.py:61` — evaluates to `(3 - 2) // 2 = 0`, not the
claimed 1 (the true per-scan count is 1). -/
theorem spec_C3_scenarioA_output_and_count :
    filter_playlist scenarioA =
      ["#EXTM3U\n".toList, "#EXTINF:0,Arsenal TV\n".toList,
       "http://x/2\n".toList] ∧
    channels_matched scenarioA = 0 ∧
    trueMatchedCount scenarioA = 1 := by
  refine ⟨by decide, by decide, by decide⟩

/-- C4: refuted on the code.  With one matched entry and its reference
line but no header lines, the division formula of `filter_playlist.py:61`
reports `(2 - 2) // 2 = 0`, while an incrementing per-match counter
yields 1. -/
theorem spec_C4_reported_count_not_true_count :
    channels_matched soloEntryInput = 0 ∧
    trueMatchedCount soloEntryInput = 1 := by
  refine ⟨by decide, by decide⟩

/-- C5: partially refuted on the code.  Empty input produces empty
output and zero line counts, but the matched-entry figure printed at
`filter_playlist.py:61` is `(0 - 2) // 2 = -1` under Python floor
division, not the claimed 0. -/
theorem spec_C5_empty_input_summary :
    filter_playlist [] = [] ∧
    input_line_count [] = 0 ∧
    output_line_count [] = 0 ∧
    channels_matched [] = -1 := by
  refine ⟨by decide, by decide, by decide, by decide⟩

/-- C6: refuted on the code.  Filtering `refilterInput` once yields the
matched metadata line followed by the surviving header line; filtering
that output again drops the header (it now immediately follows the
matched metadata line), so the filter is not idempotent. -/
theorem spec_C6_refilter_differs :
    filter_playlist refilterInput =
      ["#EXTINF:0,Arsenal\n".toList, "#EXTM3U\n".toList] ∧
    filter_playlist (filter_playlist refilterInput) =
      ["#EXTINF:0,Arsenal\n".toList] ∧
    filter_playlist (filter_playlist refilterInput) ≠
      filter_playlist refilterInput := by
  refine ⟨by decide, by decide, by decide⟩

/-- C8: the output line sequence is a subsequence of the input line
sequence — every output line is an unmodified input line and relative
order is preserved, for every input. -/
theorem spec_C8_output_subsequence (ls : List (List Char)) :
    List.Sublist (filter_playlist ls) ls :=
  filter_playlist_sublist ls

/-! Characterisation of the two string primitives. -/

theorem startsWith_iff : ∀ p l : List Char,
    startsWith p l = true ↔ ∃ q, l = p ++ q := by
  intro p
  induction p with
  | nil => intro l; simp [startsWith]
  | cons a as ih =>
    intro l
    cases l with
    | nil => simp [startsWith]
    | cons c cs =>
      simp only [startsWith, Bool.and_eq_true, beq_iff_eq, List.cons_append,
        List.cons.injEq]
      constructor
      · rintro ⟨rfl, h⟩
        obtain ⟨q, rfl⟩ := (ih cs).mp h
        exact ⟨q, rfl, rfl⟩
      · rintro ⟨q, hac, hcs⟩
        exact ⟨hac.symm, (ih cs).mpr ⟨q, hcs⟩⟩

theorem hasSubstring_iff : ∀ hay needle : List Char,
    hasSubstring hay needle = true ↔ ∃ p q, hay = p ++ needle ++ q := by
  intro hay
  induction hay with
  | nil =>
    intro needle
    rw [hasSubstring]
    simp only [Bool.or_false, startsWith_iff]
    constructor
    · rintro ⟨q, hq⟩
      exact ⟨[], q, by simpa using hq⟩
    · rintro ⟨p, q, hpq⟩
      have h := List.append_eq_nil.mp hpq.symm
      have h2 := List.append_eq_nil.mp h.1
      exact ⟨[], by simp [h2.2]⟩
  | cons c t ih =>
    intro needle
    rw [hasSubstring]
    simp only [Bool.or_eq_true, startsWith_iff, ih]
    constructor
    · rintro (⟨q, hq⟩ | ⟨p, q, hpq⟩)
      · exact ⟨[], q, by simpa using hq⟩
      · exact ⟨c :: p, q, by simp [hpq]⟩
    · rintro ⟨p, q, hpq⟩
      cases p with
      | nil => exact Or.inl ⟨q, by simpa using hpq⟩
      | cons d p2 =>
        simp only [List.cons_append, List.cons.injEq] at hpq
        exact Or.inr ⟨p2, q, hpq.2⟩

/-- C9: keyword matching is exactly case-insensitive substring
containment.  A metadata line is matched iff some keyword of the fixed
list occurs in the line under some combination of letter cases — i.e.
the line splits as `pre ++ v ++ post` where `v` lowercases to the
keyword; the splitting point is arbitrary, so incidental collisions
inside unrelated words count. -/
theorem spec_C9_case_insensitive_substring (line : List Char) :
    matchesKeyword line = true ↔
      ∃ kw ∈ keywords, ∃ pre v post,
        line = pre ++ v ++ post ∧ pyLower v = pyLower kw := by
  rw [matchesKeyword, List.any_eq_true]
  constructor
  · rintro ⟨kw, hkw, hsub⟩
    obtain ⟨p, q, hpq⟩ := (hasSubstring_iff _ _).mp hsub
    refine ⟨kw, hkw, line.take p.length,
      (line.drop p.length).take kw.length,
      line.drop (p.length + kw.length), ?_, ?_⟩
    · have hsplit : line = line.take p.length ++
          ((line.drop p.length).take kw.length ++
            (line.drop p.length).drop kw.length) := by
        rw [List.take_append_drop, List.take_append_drop]
      rw [List.drop_drop] at hsplit
      rw [List.append_assoc]
      exact hsplit
    · have hmap : (line.map Char.toLower).drop p.length =
          pyLower kw ++ q := by
        rw [show line.map Char.toLower = p ++ (pyLower kw ++ q) by
              simpa [pyLower] using hpq,
          List.drop_left]
      have hlen : (pyLower kw).length = kw.length := by simp [pyLower]
      calc pyLower ((line.drop p.length).take kw.length)
          = ((line.map Char.toLower).drop p.length).take kw.length := by
            simp [pyLower]
        _ = (pyLower kw ++ q).take kw.length := by rw [hmap]
        _ = pyLower kw := List.take_left' hlen
  · rintro ⟨kw, hkw, pre, v, post, rfl, hv⟩
    refine ⟨kw, hkw, (hasSubstring_iff _ _).mpr
      ⟨pyLower pre, pyLower post, ?_⟩⟩
    simp only [pyLower, List.map_append] at hv ⊢
    rw [hv]

/-- C10: every output line that does not start with `#` sits at a
positive position and is directly preceded in the output by an
entry-metadata line that matched a keyword; in particular the output
never begins with a non-marker line. -/
theorem spec_C10_nonmarker_preceded_by_matched_extinf :
    ∀ (ls : List (List Char)) (k : Nat),
      k < (filter_playlist ls).length →
      startsHash ((filter_playlist ls).getD k []) = false →
      0 < k ∧
        isExtinfLine ((filter_playlist ls).getD (k - 1) []) = true ∧
        matchesKeyword ((filter_playlist ls).getD (k - 1) []) = true := by
  intro ls
  induction ls using filter_playlist.induct with
  | case1 =>
    intro k hk hnm
    rw [filter_playlist_nil] at hk
    exact absurd hk (by simp)
  | case2 line rest h1 ih =>
    intro k hk hnm
    rw [filter_playlist_header h1] at hk hnm ⊢
    cases k with
    | zero =>
      rw [List.getD_cons_zero] at hnm
      simp [isHeaderLine_startsHash h1] at hnm
    | succ j =>
      rw [List.getD_cons_succ] at hnm
      obtain ⟨hpos, hext, hmat⟩ := ih j (by simpa using hk) hnm
      obtain ⟨j2, rfl⟩ : ∃ j2, j = j2 + 1 :=
        ⟨j - 1, (Nat.succ_pred_eq_of_pos hpos).symm⟩
      exact ⟨Nat.succ_pos _, by simpa using hext, by simpa using hmat⟩
  | case3 line h1 h2 h3 nxt rest2 h4 ih =>
    intro k hk hnm
    rw [filter_playlist_matched_ref (by simpa using h1) h2 h3 h4] at hk hnm ⊢
    cases k with
    | zero =>
      rw [List.getD_cons_zero] at hnm
      simp [isExtinfLine_startsHash h2] at hnm
    | succ j =>
      cases j with
      | zero => exact ⟨Nat.one_pos, by simpa using h2, by simpa using h3⟩
      | succ j2 =>
        rw [List.getD_cons_succ, List.getD_cons_succ] at hnm
        obtain ⟨hpos, hext, hmat⟩ := ih j2 (by simpa using hk) hnm
        obtain ⟨j3, rfl⟩ : ∃ j3, j2 = j3 + 1 :=
          ⟨j2 - 1, (Nat.succ_pred_eq_of_pos hpos).symm⟩
        exact ⟨Nat.succ_pos _, by simpa using hext, by simpa using hmat⟩
  | case4 line h1 h2 h3 nxt rest2 h4 ih =>
    intro k hk hnm
    rw [filter_playlist_matched_marker (by simpa using h1) h2 h3
      (by simpa using h4)] at hk hnm ⊢
    cases k with
    | zero =>
      rw [List.getD_cons_zero] at hnm
      simp [isExtinfLine_startsHash h2] at hnm
    | succ j =>
      rw [List.getD_cons_succ] at hnm
      obtain ⟨hpos, hext, hmat⟩ := ih j (by simpa using hk) hnm
      obtain ⟨j2, rfl⟩ : ∃ j2, j = j2 + 1 :=
        ⟨j - 1, (Nat.succ_pred_eq_of_pos hpos).symm⟩
      exact ⟨Nat.succ_pos _, by simpa using hext, by simpa using hmat⟩
  | case5 line h1 h2 h3 =>
    intro k hk hnm
    rw [filter_playlist_matched_last (by simpa using h1) h2 h3] at hk hnm
    cases k with
    | zero =>
      rw [List.getD_cons_zero] at hnm
      simp [isExtinfLine_startsHash h2] at hnm
    | succ j => exact absurd hk (by simp)
  | case6 line h1 h2 h3 nxt rest2 h4 ih =>
    intro k hk hnm
    rw [filter_playlist_unmatched_ref (by simpa using h1) h2
      (by simpa using h3) h4] at hk hnm ⊢
    exact ih k hk hnm
  | case7 line h1 h2 h3 nxt rest2 h4 ih =>
    intro k hk hnm
    rw [filter_playlist_unmatched_marker (by simpa using h1) h2
      (by simpa using h3) (by simpa using h4)] at hk hnm ⊢
    exact ih k hk hnm
  | case8 line h1 h2 h3 =>
    intro k hk hnm
    rw [filter_playlist_unmatched_last (by simpa using h1) h2
      (by simpa using h3)] at hk
    exact absurd hk (by simp)
  | case9 line rest h1 h2 ih =>
    intro k hk hnm
    rw [filter_playlist_other (by simpa using h1) (by simpa using h2)]
      at hk hnm ⊢
    exact ih k hk hnm

/-- C10 witness: on the Scenario A input the third output line
`http://x/2` does not start with `#`, and the theorem places the matched
`#EXTINF:0,Arsenal TV` line directly before it. -/
theorem spec_C10_witness :
    0 < 2 ∧
      isExtinfLine ((filter_playlist scenarioA).getD 1 []) = true ∧
      matchesKeyword ((filter_playlist scenarioA).getD 1 []) = true :=
  spec_C10_nonmarker_preceded_by_matched_extinf scenarioA 2
    (by decide) (by decide)

/-- The scan of `filter_playlist`, instrumented with the 0-based input
position of each line (the cursor value at which the Python loop reads
it); all tests look only at the line component, so mapping the position
away recovers `filter_playlist` (`filterIdx_map_snd`). -/
def filterIdx : List (Nat × List Char) → List (Nat × List Char)
  | [] => []
  | p :: rest =>
    if isHeaderLine p.2 then
      p :: filterIdx rest
    else if isExtinfLine p.2 then
      if matchesKeyword p.2 then
        match rest with
        | nxt :: rest2 =>
          if startsHash nxt.2 = false then
            p :: nxt :: filterIdx rest2
          else
            p :: filterIdx rest2
        | [] => [p]
      else
        match rest with
        | nxt :: rest2 =>
          if startsHash nxt.2 = false then
            filterIdx rest2
          else
            filterIdx (nxt :: rest2)
        | [] => []
    else
      filterIdx rest

theorem filterIdx_nil : filterIdx [] = [] := rfl

theorem filterIdx_header {p : Nat × List Char} {l : List (Nat × List Char)}
    (h1 : isHeaderLine p.2 = true) :
    filterIdx (p :: l) = p :: filterIdx l := by
  rw [filterIdx.eq_def]; simp [h1]

theorem filterIdx_matched_last {p : Nat × List Char}
    (h1 : isHeaderLine p.2 = false) (h2 : isExtinfLine p.2 = true)
    (h3 : matchesKeyword p.2 = true) :
    filterIdx [p] = [p] := by
  rw [filterIdx.eq_def]; simp [h1, h2, h3]

theorem filterIdx_matched_ref {p q : Nat × List Char} {l : List (Nat × List Char)}
    (h1 : isHeaderLine p.2 = false) (h2 : isExtinfLine p.2 = true)
    (h3 : matchesKeyword p.2 = true) (h4 : startsHash q.2 = false) :
    filterIdx (p :: q :: l) = p :: q :: filterIdx l := by
  rw [filterIdx.eq_def]; simp [h1, h2, h3, h4]

theorem filterIdx_matched_marker {p q : Nat × List Char} {l : List (Nat × List Char)}
    (h1 : isHeaderLine p.2 = false) (h2 : isExtinfLine p.2 = true)
    (h3 : matchesKeyword p.2 = true) (h4 : startsHash q.2 = true) :
    filterIdx (p :: q :: l) = p :: filterIdx l := by
  rw [filterIdx.eq_def]; simp [h1, h2, h3, h4]

theorem filterIdx_unmatched_last {p : Nat × List Char}
    (h1 : isHeaderLine p.2 = false) (h2 : isExtinfLine p.2 = true)
    (h3 : matchesKeyword p.2 = false) :
    filterIdx [p] = [] := by
  rw [filterIdx.eq_def]; simp [h1, h2, h3]

theorem filterIdx_unmatched_ref {p q : Nat × List Char} {l : List (Nat × List Char)}
    (h1 : isHeaderLine p.2 = false) (h2 : isExtinfLine p.2 = true)
    (h3 : matchesKeyword p.2 = false) (h4 : startsHash q.2 = false) :
    filterIdx (p :: q :: l) = filterIdx l := by
  rw [filterIdx.eq_def]; simp [h1, h2, h3, h4]

theorem filterIdx_unmatched_marker {p q : Nat × List Char} {l : List (Nat × List Char)}
    (h1 : isHeaderLine p.2 = false) (h2 : isExtinfLine p.2 = true)
    (h3 : matchesKeyword p.2 = false) (h4 : startsHash q.2 = true) :
    filterIdx (p :: q :: l) = filterIdx (q :: l) := by
  rw [filterIdx.eq_def]; simp [h1, h2, h3, h4]

theorem filterIdx_other {p : Nat × List Char} {l : List (Nat × List Char)}
    (h1 : isHeaderLine p.2 = false) (h2 : isExtinfLine p.2 = false) :
    filterIdx (p :: l) = filterIdx l := by
  rw [filterIdx.eq_def]; simp [h1, h2]

theorem filterIdx_sublist (ps : List (Nat × List Char)) :
    List.Sublist (filterIdx ps) ps := by
  induction ps using filterIdx.induct with
  | case1 => simp [filterIdx_nil]
  | case2 p rest h1 ih =>
    rw [filterIdx_header h1]
    exact ih.cons₂ _
  | case3 p h1 h2 h3 nxt rest2 h4 ih =>
    rw [filterIdx_matched_ref (by simpa using h1) h2 h3 h4]
    exact (ih.cons₂ _).cons₂ _
  | case4 p h1 h2 h3 nxt rest2 h4 ih =>
    rw [filterIdx_matched_marker (by simpa using h1) h2 h3 (by simpa using h4)]
    exact (ih.trans (List.sublist_cons_self _ _)).cons₂ _
  | case5 p h1 h2 h3 =>
    rw [filterIdx_matched_last (by simpa using h1) h2 h3]
  | case6 p h1 h2 h3 nxt rest2 h4 ih =>
    rw [filterIdx_unmatched_ref (by simpa using h1) h2 (by simpa using h3) h4]
    exact ih.trans ((List.sublist_cons_self _ _).trans (List.sublist_cons_self _ _))
  | case7 p h1 h2 h3 nxt rest2 h4 ih =>
    rw [filterIdx_unmatched_marker (by simpa using h1) h2
      (by simpa using h3) (by simpa using h4)]
    exact ih.trans (List.sublist_cons_self _ _)
  | case8 p h1 h2 h3 =>
    rw [filterIdx_unmatched_last (by simpa using h1) h2 (by simpa using h3)]
    exact List.nil_sublist _
  | case9 p rest h1 h2 ih =>
    rw [filterIdx_other (by simpa using h1) (by simpa using h2)]
    exact ih.trans (List.sublist_cons_self _ _)

/-- Dropping the position component of the instrumented scan yields
exactly the scan of the source. -/
theorem filterIdx_map_snd : ∀ ps : List (Nat × List Char),
    (filterIdx ps).map Prod.snd = filter_playlist (ps.map Prod.snd) := by
  intro ps
  induction ps using filterIdx.induct with
  | case1 => simp [filterIdx_nil, filter_playlist_nil]
  | case2 p rest h1 ih =>
    rw [filterIdx_header h1]
    simp only [List.map_cons]
    rw [filter_playlist_header h1, ih]
  | case3 p h1 h2 h3 nxt rest2 h4 ih =>
    rw [filterIdx_matched_ref (by simpa using h1) h2 h3 h4]
    simp only [List.map_cons]
    rw [filter_playlist_matched_ref (by simpa using h1) h2 h3 h4, ih]
  | case4 p h1 h2 h3 nxt rest2 h4 ih =>
    rw [filterIdx_matched_marker (by simpa using h1) h2 h3 (by simpa using h4)]
    simp only [List.map_cons]
    rw [filter_playlist_matched_marker (by simpa using h1) h2 h3
      (by simpa using h4), ih]
  | case5 p h1 h2 h3 =>
    rw [filterIdx_matched_last (by simpa using h1) h2 h3]
    simp only [List.map_cons, List.map_nil]
    rw [filter_playlist_matched_last (by simpa using h1) h2 h3]
  | case6 p h1 h2 h3 nxt rest2 h4 ih =>
    rw [filterIdx_unmatched_ref (by simpa using h1) h2 (by simpa using h3) h4]
    simp only [List.map_cons]
    rw [filter_playlist_unmatched_ref (by simpa using h1) h2
      (by simpa using h3) h4, ih]
  | case7 p h1 h2 h3 nxt rest2 h4 ih =>
    rw [filterIdx_unmatched_marker (by simpa using h1) h2
      (by simpa using h3) (by simpa using h4)]
    simp only [List.map_cons]
    rw [filter_playlist_unmatched_marker (by simpa using h1) h2
      (by simpa using h3) (by simpa using h4)]
    simpa using ih
  | case8 p h1 h2 h3 =>
    rw [filterIdx_unmatched_last (by simpa using h1) h2 (by simpa using h3)]
    simp only [List.map_cons, List.map_nil]
    rw [filter_playlist_unmatched_last (by simpa using h1) h2 (by simpa using h3)]
  | case9 p rest h1 h2 ih =>
    rw [filterIdx_other (by simpa using h1) (by simpa using h2)]
    simp only [List.map_cons]
    rw [filter_playlist_other (by simpa using h1) (by simpa using h2), ih]

theorem startsHash_false_not_header {l : List Char} (h : startsHash l = false) :
    isHeaderLine l = false := by
  cases hh : isHeaderLine l
  · rfl
  · rw [isHeaderLine_startsHash hh] at h
    exact absurd h (by decide)

theorem startsHash_false_not_extinf {l : List Char} (h : startsHash l = false) :
    isExtinfLine l = false := by
  cases hh : isExtinfLine l
  · rfl
  · rw [isExtinfLine_startsHash hh] at h
    exact absurd h (by decide)

theorem not_mem_filterIdx_of_tag {ps : List (Nat × List Char)}
    {x : Nat × List Char} (h : x.1 ∉ ps.map Prod.fst) :
    x ∉ filterIdx ps := fun hx =>
  h (List.mem_map_of_mem Prod.fst ((filterIdx_sublist ps).subset hx))

/-- Key pairing lemma: in the instrumented scan over position-tagged
lines with distinct tags, an entry-metadata line and the non-marker line
directly after it are retained together or dropped together. -/
theorem filterIdx_pair_iff :
    ∀ ps : List (Nat × List Char),
      (ps.map Prod.fst).Nodup →
      ∀ (pre post : List (Nat × List Char)) (a b : Nat) (m r : List Char),
        ps = pre ++ (a, m) :: (b, r) :: post →
        isExtinfLine m = true → startsHash r = false →
        (((a, m) ∈ filterIdx ps) ↔ ((b, r) ∈ filterIdx ps)) := by
  intro ps
  induction ps using filterIdx.induct with
  | case1 =>
    intro hnd pre post a b m r hps hm hr
    have := congrArg List.length hps
    simp only [List.length_nil, List.length_append, List.length_cons] at this
    omega
  | case2 p rest h1 ih =>
    intro hnd pre post a b m r hps hm hr
    simp only [List.map_cons, List.nodup_cons] at hnd
    cases pre with
    | nil =>
      rw [List.nil_append] at hps
      injection hps with hp hrest
      subst hp
      exact absurd hm (by simp [isHeaderLine_not_extinf h1])
    | cons p' pre' =>
      rw [List.cons_append] at hps
      injection hps with hp hrest
      have ha : a ∈ rest.map Prod.fst := by rw [hrest]; simp
      have hb : b ∈ rest.map Prod.fst := by rw [hrest]; simp
      have hne1 : ((a, m) : Nat × List Char) ≠ p :=
        fun he => hnd.1 (by rw [← he]; exact ha)
      have hne2 : ((b, r) : Nat × List Char) ≠ p :=
        fun he => hnd.1 (by rw [← he]; exact hb)
      rw [filterIdx_header h1, List.mem_cons, List.mem_cons,
        or_iff_right hne1, or_iff_right hne2]
      exact ih hnd.2 pre' post a b m r hrest hm hr
  | case3 p h1 h2 h3 nxt rest2 h4 ih =>
    intro hnd pre post a b m r hps hm hr
    simp only [List.map_cons, List.nodup_cons] at hnd
    cases pre with
    | nil =>
      rw [List.nil_append] at hps
      injection hps with hp hrest
      injection hrest with hnxt hrest2
      subst hp; subst hnxt; subst hrest2
      rw [filterIdx_matched_ref (by simpa using h1) h2 h3 h4]
      simp
    | cons p' pre' =>
      rw [List.cons_append] at hps
      injection hps with hp hrest
      cases pre' with
      | nil =>
        rw [List.nil_append] at hrest
        injection hrest with hnxt hrest2
        subst hnxt
        have h4' : startsHash m = false := h4
        rw [isExtinfLine_startsHash hm] at h4'
        exact absurd h4' (by decide)
      | cons p'' pre'' =>
        rw [List.cons_append] at hrest
        injection hrest with hnxt hrest2
        have ha2 : a ∈ rest2.map Prod.fst := by rw [hrest2]; simp
        have hb2 : b ∈ rest2.map Prod.fst := by rw [hrest2]; simp
        have hne1 : ((a, m) : Nat × List Char) ≠ p :=
          fun he => hnd.1 (by rw [← he]; exact List.mem_cons_of_mem _ ha2)
        have hne2 : ((b, r) : Nat × List Char) ≠ p :=
          fun he => hnd.1 (by rw [← he]; exact List.mem_cons_of_mem _ hb2)
        have hne3 : ((a, m) : Nat × List Char) ≠ nxt :=
          fun he => hnd.2.1 (by rw [← he]; exact ha2)
        have hne4 : ((b, r) : Nat × List Char) ≠ nxt :=
          fun he => hnd.2.1 (by rw [← he]; exact hb2)
        rw [filterIdx_matched_ref (by simpa using h1) h2 h3 h4,
          List.mem_cons, List.mem_cons, List.mem_cons, List.mem_cons,
          or_iff_right hne1, or_iff_right hne2,
          or_iff_right hne3, or_iff_right hne4]
        exact ih hnd.2.2 pre'' post a b m r hrest2 hm hr
  | case4 p h1 h2 h3 nxt rest2 h4 ih =>
    intro hnd pre post a b m r hps hm hr
    simp only [List.map_cons, List.nodup_cons] at hnd
    cases pre with
    | nil =>
      rw [List.nil_append] at hps
      injection hps with hp hrest
      injection hrest with hnxt hrest2
      subst hnxt
      exact absurd hr h4
    | cons p' pre' =>
      rw [List.cons_append] at hps
      injection hps with hp hrest
      cases pre' with
      | nil =>
        rw [List.nil_append] at hrest
        injection hrest with hnxt hrest2
        subst hnxt; subst hrest2
        have hr' : startsHash ((b, r) : Nat × List Char).2 = false := hr
        have hAne : ((a, m) : Nat × List Char) ≠ p :=
          fun he => hnd.1 (by rw [← he]; exact List.mem_cons_self _ _)
        have hAnot : ((a, m) : Nat × List Char) ∉ filterIdx ((b, r) :: post) :=
          not_mem_filterIdx_of_tag hnd.2.1
        have hndp : b ∉ post.map Prod.fst := by
          have := hnd.2.2
          simp only [List.map_cons, List.nodup_cons] at this
          exact this.1
        have hBne : ((b, r) : Nat × List Char) ≠ p :=
          fun he => hnd.1 (by rw [← he]; simp)
        have hBnot : ((b, r) : Nat × List Char) ∉ filterIdx ((b, r) :: post) := by
          rw [filterIdx_other (startsHash_false_not_header hr')
            (startsHash_false_not_extinf hr')]
          exact not_mem_filterIdx_of_tag hndp
        rw [filterIdx_matched_marker (by simpa using h1) h2 h3 (by simpa using h4)]
        refine iff_of_false ?_ ?_
        · intro hc
          rcases List.mem_cons.mp hc with h | h
          · exact hAne h
          · exact hAnot h
        · intro hc
          rcases List.mem_cons.mp hc with h | h
          · exact hBne h
          · exact hBnot h
      | cons p'' pre'' =>
        rw [List.cons_append] at hrest
        injection hrest with hnxt hrest2
        have ha2 : a ∈ rest2.map Prod.fst := by rw [hrest2]; simp
        have hb2 : b ∈ rest2.map Prod.fst := by rw [hrest2]; simp
        have hne1 : ((a, m) : Nat × List Char) ≠ p :=
          fun he => hnd.1 (by rw [← he]; exact List.mem_cons_of_mem _ ha2)
        have hne2 : ((b, r) : Nat × List Char) ≠ p :=
          fun he => hnd.1 (by rw [← he]; exact List.mem_cons_of_mem _ hb2)
        rw [filterIdx_matched_marker (by simpa using h1) h2 h3 (by simpa using h4),
          List.mem_cons, List.mem_cons, or_iff_right hne1, or_iff_right hne2]
        exact ih hnd.2.2 pre'' post a b m r hrest2 hm hr
  | case5 p h1 h2 h3 =>
    intro hnd pre post a b m r hps hm hr
    have := congrArg List.length hps
    simp [List.length_append] at this
    omega
  | case6 p h1 h2 h3 nxt rest2 h4 ih =>
    intro hnd pre post a b m r hps hm hr
    simp only [List.map_cons, List.nodup_cons] at hnd
    cases pre with
    | nil =>
      rw [List.nil_append] at hps
      injection hps with hp hrest
      injection hrest with hnxt hrest2
      subst hp; subst hnxt
      rw [filterIdx_unmatched_ref (by simpa using h1) h2 (by simpa using h3) h4]
      have hAnot : ((a, m) : Nat × List Char) ∉ filterIdx rest2 :=
        not_mem_filterIdx_of_tag (fun hc => hnd.1 (List.mem_cons_of_mem _ hc))
      have hBnot : ((b, r) : Nat × List Char) ∉ filterIdx rest2 :=
        not_mem_filterIdx_of_tag hnd.2.1
      exact iff_of_false hAnot hBnot
    | cons p' pre' =>
      rw [List.cons_append] at hps
      injection hps with hp hrest
      cases pre' with
      | nil =>
        rw [List.nil_append] at hrest
        injection hrest with hnxt hrest2
        subst hnxt
        have h4' : startsHash m = false := h4
        rw [isExtinfLine_startsHash hm] at h4'
        exact absurd h4' (by decide)
      | cons p'' pre'' =>
        rw [List.cons_append] at hrest
        injection hrest with hnxt hrest2
        rw [filterIdx_unmatched_ref (by simpa using h1) h2 (by simpa using h3) h4]
        exact ih hnd.2.2 pre'' post a b m r hrest2 hm hr
  | case7 p h1 h2 h3 nxt rest2 h4 ih =>
    intro hnd pre post a b m r hps hm hr
    rw [List.map_cons, List.nodup_cons] at hnd
    cases pre with
    | nil =>
      rw [List.nil_append] at hps
      injection hps with hp hrest
      injection hrest with hnxt hrest2
      subst hnxt
      exact absurd hr h4
    | cons p' pre' =>
      rw [List.cons_append] at hps
      injection hps with hp hrest
      rw [filterIdx_unmatched_marker (by simpa using h1) h2
        (by simpa using h3) (by simpa using h4)]
      exact ih hnd.2 pre' post a b m r hrest hm hr
  | case8 p h1 h2 h3 =>
    intro hnd pre post a b m r hps hm hr
    have := congrArg List.length hps
    simp [List.length_append] at this
    omega
  | case9 p rest h1 h2 ih =>
    intro hnd pre post a b m r hps hm hr
    simp only [List.map_cons, List.nodup_cons] at hnd
    cases pre with
    | nil =>
      rw [List.nil_append] at hps
      injection hps with hp hrest
      subst hp
      exact absurd hm (by simpa using h2)
    | cons p' pre' =>
      rw [List.cons_append] at hps
      injection hps with hp hrest
      rw [filterIdx_other (by simpa using h1) (by simpa using h2)]
      exact ih hnd.2 pre' post a b m r hrest hm hr

theorem eq_take_cons_cons_drop {α : Type} (ps : List α) (i : Nat) (d : α)
    (h : i + 1 < ps.length) :
    ps = ps.take i ++ ps.getD i d :: ps.getD (i + 1) d :: ps.drop (i + 2) := by
  have h1 : i < ps.length := by omega
  rw [List.getD_eq_getElem?_getD, List.getElem?_eq_getElem h1, Option.getD_some,
    List.getD_eq_getElem?_getD, List.getElem?_eq_getElem h, Option.getD_some]
  conv_lhs => rw [← List.take_append_drop i ps]
  rw [List.drop_eq_getElem_cons h1, List.drop_eq_getElem_cons h]

theorem enum_getD (ls : List (List Char)) (i : Nat) (h : i < ls.length) :
    ls.enum.getD i (0, ([] : List Char)) = (i, ls.getD i []) := by
  have h2 : i < ls.enum.length := by simpa [List.enum_length] using h
  rw [List.getD_eq_getElem?_getD, List.getElem?_eq_getElem h2, Option.getD_some,
    List.getElem_enum, List.getD_eq_getElem?_getD, List.getElem?_eq_getElem h,
    Option.getD_some]

/-- C7: pairing atomicity.  For every input position `i` holding an
entry-metadata line whose next line exists and does not start with `#`
(an attached reference line), the position-tagged scan keeps both lines
or drops both; the first conjunct certifies that the tagged scan
computes exactly `filter_playlist` once tags are erased. -/
theorem spec_C7_pairing_atomicity (ls : List (List Char)) (i : Nat)
    (hi : i + 1 < ls.length)
    (hm : isExtinfLine (ls.getD i []) = true)
    (hr : startsHash (ls.getD (i + 1) []) = false) :
    ((filterIdx ls.enum).map Prod.snd = filter_playlist ls) ∧
      (((i, ls.getD i []) ∈ filterIdx ls.enum) ↔
        ((i + 1, ls.getD (i + 1) []) ∈ filterIdx ls.enum)) := by
  constructor
  · rw [filterIdx_map_snd, List.enum_map_snd]
  · have hlen : i + 1 < ls.enum.length := by simpa [List.enum_length] using hi
    have hdec := eq_take_cons_cons_drop ls.enum i (0, ([] : List Char)) hlen
    rw [enum_getD ls i (by omega), enum_getD ls (i + 1) hi] at hdec
    exact filterIdx_pair_iff ls.enum (List.nodup_enum_map_fst ls)
      (ls.enum.take i) (ls.enum.drop (i + 2)) i (i + 1) _ _ hdec hm hr

/-- C7 witness: in the Scenario A input the matched entry at position 3
has its reference at position 4; the theorem yields the tagged-scan
agreement and the joint-retention equivalence for that entry. -/
theorem spec_C7_witness :
    ((filterIdx scenarioA.enum).map Prod.snd = filter_playlist scenarioA) ∧
      (((3, scenarioA.getD 3 []) ∈ filterIdx scenarioA.enum) ↔
        ((4, scenarioA.getD 4 []) ∈ filterIdx scenarioA.enum)) :=
  spec_C7_pairing_atomicity scenarioA 3 (by decide) (by decide) (by decide)

end SourceExplorer
